import Mathlib

/-!
Verification of `SaveArtifactsPlugin.on_agent_output_callback`
(src/movie_pitch_agent/save_artifacts_plugin.py).

The callback inspects an agent's output message, and for every Part carrying
inline binary data it determines a filename (the Part's display name, or a
generated `artifact_{invocation_id}_{i}.txt`), defaults a blank MIME type to
`text/plain` by assigning the Part's blob in place, and calls
`artifact_service.save_artifact` with a `copy.copy` of the Part.  Failures of
the save call are caught per Part and logged; the callback always returns
`None` ("no modification").

The embedding below is a pure, executable translation of that method.  The
only genuinely fallible operation in the loop body is the external
`save_artifact` call, modelled by an oracle `saveOk : Nat → Bool` giving, for
each loop index, whether the call succeeds or raises.  The result of a run
records the return value, the message as the caller sees it afterwards
(in-place part mutations applied), the list of store calls issued, and the
log events emitted.
-/

namespace SaveArtifacts

/-- `google.genai.types.Blob`: the inline binary payload of a Part, with the
fields the callback reads (`data`, `mime_type`, `display_name`). -/
structure Blob where
  data : List Nat
  mimeType : Option String
  displayName : Option String
deriving DecidableEq, Repr

/-- `google.genai.types.Part`: plain text content or inline binary data.  The
callback only distinguishes `inline_data is None` from not; other content
fields are summarised by `text`. -/
structure Part where
  text : Option String
  inlineData : Option Blob
deriving DecidableEq, Repr

/-- `google.genai.types.Content`: `parts` may be `None` or a list. -/
structure Content where
  parts : Option (List Part)
deriving DecidableEq, Repr

/-- The fields of `InvocationContext` read by the callback.
`hasArtifactService` models the truthiness of
`invocation_context.artifact_service`. -/
structure InvocationContext where
  invocationId : String
  appName : String
  userId : String
  sessionId : String
  hasArtifactService : Bool
deriving DecidableEq, Repr

/-- One call to `artifact_service.save_artifact`, with the arguments the code
passes.  `partIndex` records the loop index at which the call was issued; it
is trace bookkeeping for the specification, not an argument of the call. -/
structure SaveCall where
  appName : String
  userId : String
  sessionId : String
  filename : String
  artifact : Part
  partIndex : Nat
deriving DecidableEq, Repr

/-- The log records the callback emits, one constructor per `logger.*` call
site in the method. -/
inductive LogEvent where
  | warnNoArtifactService
  | infoGeneratedName (filename : String)
  | warnEmptyMime (filename : String)
  | infoSaved (filename : String) (mime : String)
  | errorSaveFailed (partIndex : Nat)
deriving DecidableEq, Repr

/-- The observable outcome of one invocation of the callback: its return
value, the message as the caller sees it after the call (the code mutates
parts in place, so this can differ from the input), the store calls issued,
and the logs emitted. -/
structure ProcessResult where
  returnValue : Option Content
  output : Content
  saveCalls : List SaveCall
  logs : List LogEvent
deriving DecidableEq, Repr

/-- Python truthiness test `not s` for an optional string: true for `None`
and for the empty string. -/
def strFalsy : Option String → Bool
  | none => true
  | some s => s == ""

/-- The characters Python's `str.strip()` removes: the characters for which
`str.isspace()` holds, i.e. ASCII whitespace `\t\n\v\f\r` and space, the
ASCII separators `\x1c`-`\x1f`, next-line `\x85`, no-break space `\xa0`,
ogham space mark `\x1680`, the Unicode spaces `\x2000`-`\x200a`, line and
paragraph separators `\x2028`/`\x2029`, narrow no-break space `\x202f`,
medium mathematical space `\x205f`, and ideographic space `\x3000`. -/
def isSpaceChar (c : Char) : Bool :=
  (0x09 ≤ c.toNat && c.toNat ≤ 0x0d) || c.toNat == 0x20 ||
  (0x1c ≤ c.toNat && c.toNat ≤ 0x1f) || c.toNat == 0x85 || c.toNat == 0xa0 ||
  c.toNat == 0x1680 || (0x2000 ≤ c.toNat && c.toNat ≤ 0x200a) ||
  c.toNat == 0x2028 || c.toNat == 0x2029 || c.toNat == 0x202f ||
  c.toNat == 0x205f || c.toNat == 0x3000

/-- Python `s.strip()`: the string with leading and trailing whitespace
removed. -/
def pyStrip (s : String) : String :=
  ⟨((s.data.dropWhile isSpaceChar).reverse.dropWhile isSpaceChar).reverse⟩

/-- The guard `not part.inline_data.mime_type or
part.inline_data.mime_type.strip() == ''`: true for `None`, the empty
string, and whitespace-only strings. -/
def mimeBlank : Option String → Bool
  | none => true
  | some s => s == "" || pyStrip s == ""

/-- The generated fallback filename
`f'artifact_{invocation_context.invocation_id}_{i}.txt'`. -/
def generatedName (ctx : InvocationContext) (i : Nat) : String :=
  "artifact_" ++ ctx.invocationId ++ "_" ++ toString i ++ ".txt"

/-- The body of the `for i, part in enumerate(agent_output.parts)` loop for a
single part: skip when `inline_data is None`; otherwise resolve the filename,
default a blank MIME type by mutating the blob in place, issue the
`save_artifact` call (succeeding or raising according to `saveOk i`), and
log.  Returns the part as left in the message, the store calls issued, and
the log events, in order. -/
def processPart (ctx : InvocationContext) (saveOk : Nat → Bool) (i : Nat)
    (part : Part) : Part × List SaveCall × List LogEvent :=
  match part.inlineData with
  | none => (part, [], [])
  | some blob =>
    let nameGen := strFalsy blob.displayName
    let fileName := if nameGen then generatedName ctx i else blob.displayName.getD ""
    let nameLogs := if nameGen then [LogEvent.infoGeneratedName fileName] else []
    let defaulted := mimeBlank blob.mimeType
    let blob2 := if defaulted then { blob with mimeType := some "text/plain" } else blob
    let mimeLogs := if defaulted then [LogEvent.warnEmptyMime fileName] else []
    let part2 : Part := { part with inlineData := some blob2 }
    let call : SaveCall :=
      { appName := ctx.appName, userId := ctx.userId, sessionId := ctx.sessionId,
        filename := fileName, artifact := part2, partIndex := i }
    let saveLogs := if saveOk i then [LogEvent.infoSaved fileName (blob2.mimeType.getD "")]
      else [LogEvent.errorSaveFailed i]
    (part2, [call], nameLogs ++ mimeLogs ++ saveLogs)

/-- The whole `for` loop, threading the enumerate index.  Accumulates the
parts as left in the message, the store calls, and the logs. -/
def runParts (ctx : InvocationContext) (saveOk : Nat → Bool) :
    Nat → List Part → List Part × List SaveCall × List LogEvent
  | _, [] => ([], [], [])
  | i, p :: ps =>
    let r := processPart ctx saveOk i p
    let rest := runParts ctx saveOk (i + 1) ps
    (r.1 :: rest.1, r.2.1 ++ rest.2.1, r.2.2 ++ rest.2.2)

/-- `on_agent_output_callback`: guard on the artifact service, guard on empty
or absent `parts`, then the loop; the method returns `None` on every path. -/
def process (ctx : InvocationContext) (saveOk : Nat → Bool) (msg : Content) :
    ProcessResult :=
  if ctx.hasArtifactService = false then
    { returnValue := none, output := msg, saveCalls := [],
      logs := [LogEvent.warnNoArtifactService] }
  else
    match msg.parts with
    | none => { returnValue := none, output := msg, saveCalls := [], logs := [] }
    | some [] => { returnValue := none, output := msg, saveCalls := [], logs := [] }
    | some (p :: ps) =>
      let r := runParts ctx saveOk 0 (p :: ps)
      { returnValue := none, output := { parts := some r.1 },
        saveCalls := r.2.1, logs := r.2.2 }

/-- The in-place effect of one loop iteration on the part left in the
message: only a blank MIME type of an inline-binary part is replaced by
`text/plain`; everything else is untouched. -/
def partAfterDefault (p : Part) : Part :=
  match p.inlineData with
  | none => p
  | some blob =>
    if mimeBlank blob.mimeType then
      { p with inlineData := some { blob with mimeType := some "text/plain" } }
    else p

/-- The store call issued for an inline-binary part at loop index `i`. -/
def expectedCall (ctx : InvocationContext) (i : Nat) (p : Part) (blob : Blob) :
    SaveCall :=
  { appName := ctx.appName, userId := ctx.userId, sessionId := ctx.sessionId,
    filename := if strFalsy blob.displayName then generatedName ctx i
      else blob.displayName.getD "",
    artifact := partAfterDefault p, partIndex := i }

/-!
Heap model for the aliasing behaviour of `copy.copy(part)`.  A `Part` and its
nested `Blob` are separate objects; a part refers to its blob by address.
`copy.copy` on such an object allocates a new part object whose field values
are those of the source, so the blob object is shared between the original
and the copy, not duplicated.
-/

/-- A blob object on the heap. -/
structure BlobObj where
  data : List Nat
  mimeType : Option String
  displayName : Option String
deriving DecidableEq, Repr

/-- A part object on the heap; `inlineDataAddr` is the address of its blob
object, when it has one. -/
structure PartObj where
  text : Option String
  inlineDataAddr : Option Nat
deriving DecidableEq, Repr

/-- The heap: part objects and blob objects, addressed by position. -/
structure Heap where
  parts : List PartObj
  blobs : List BlobObj
deriving DecidableEq, Repr

/-- `copy.copy` on the part at address `a`: allocate a fresh part object with
the same field values.  The returned address is the fresh object's; its
`inlineDataAddr` still points at the original's blob object. -/
def copyCopy (h : Heap) (a : Nat) : Heap × Nat :=
  ({ h with parts := h.parts ++ [h.parts.getD a { text := none, inlineDataAddr := none }] },
    h.parts.length)

/-- What the store may do to the part object it is handed: overwrite the
fields of that part object itself, or mutate in place the blob object the
part refers to. -/
inductive StoreMutation where
  | setPartFields (v : PartObj)
  | setBlobData (d : List Nat)
deriving DecidableEq, Repr

/-- Apply a store-side mutation to the heap, `arg` being the address of the
part object passed to the store. -/
def applyMutation (h : Heap) (arg : Nat) (m : StoreMutation) : Heap :=
  match m with
  | .setPartFields v => { h with parts := h.parts.set arg v }
  | .setBlobData d =>
    match (h.parts.getD arg { text := none, inlineDataAddr := none }).inlineDataAddr with
    | none => h
    | some b =>
      let old := h.blobs.getD b { data := [], mimeType := none, displayName := none }
      { h with blobs := h.blobs.set b { old with data := d } }

/-- Read the part object at address `a`. -/
def readPart (h : Heap) (a : Nat) : PartObj :=
  h.parts.getD a { text := none, inlineDataAddr := none }

/-- Read the blob object the part at address `a` refers to, if any. -/
def readBlob (h : Heap) (a : Nat) : Option BlobObj :=
  (readPart h a).inlineDataAddr.map
    (fun b => h.blobs.getD b { data := [], mimeType := none, displayName := none })

/-!
Concrete inputs used by witnesses and counterexamples.
-/

/-- A context with the artifact service present. -/
def ctxW : InvocationContext :=
  { invocationId := "inv1", appName := "app", userId := "user",
    sessionId := "sess", hasArtifactService := true }

/-- The same context with the artifact service absent. -/
def ctxNoSvc : InvocationContext :=
  { ctxW with hasArtifactService := false }

/-- An inline blob with no display name and no MIME type. -/
def blobBare : Blob := { data := [80, 78, 71], mimeType := none, displayName := none }

/-- An inline blob with a display name and a MIME type. -/
def blobNamed : Blob :=
  { data := [1, 2], mimeType := some "image/png", displayName := some "f.png" }

/-- A plain text part. -/
def partText : Part := { text := some "hello", inlineData := none }

/-- An inline-binary part with bare metadata. -/
def partBare : Part := { text := none, inlineData := some blobBare }

/-- An inline-binary part with full metadata. -/
def partNamed : Part := { text := none, inlineData := some blobNamed }

/-- `partBare` as the callback leaves it in the message: its blank MIME type
replaced by `text/plain`. -/
def partBareAfter : Part :=
  { text := none,
    inlineData := some { data := [80, 78, 71], mimeType := some "text/plain",
                         displayName := none } }

/-- Witness parts list: a text part, a bare inline part, a named inline
part. -/
def psW : List Part := [partText, partBare, partNamed]

/-- Witness message. -/
def msgW : Content := { parts := some psW }

/-- A message with only a text part. -/
def msgTextOnly : Content := { parts := some [partText] }

/-- Witness heap: one part object at address 0 whose blob lives at blob
address 0. -/
def heapW : Heap :=
  { parts := [{ text := none, inlineDataAddr := some 0 }],
    blobs := [{ data := [1, 2, 3], mimeType := some "image/png",
                displayName := some "f.png" }] }

/-- The part left in the message by one loop iteration is exactly
`partAfterDefault` of the incoming part, independent of the save oracle. -/
theorem processPart_fst (ctx : InvocationContext) (saveOk : Nat → Bool) (i : Nat)
    (p : Part) : (processPart ctx saveOk i p).1 = partAfterDefault p := by
  obtain ⟨t, d⟩ := p
  cases d with
  | none => simp [processPart, partAfterDefault]
  | some blob =>
    simp only [processPart, partAfterDefault]
    by_cases hm : mimeBlank blob.mimeType <;> simp [hm]

/-- A non-inline part issues no store call. -/
theorem processPart_calls_none (ctx : InvocationContext) (saveOk : Nat → Bool)
    (i : Nat) (p : Part) (hp : p.inlineData = none) :
    (processPart ctx saveOk i p).2.1 = [] := by
  simp [processPart, hp]

/-- An inline-binary part issues exactly the `expectedCall`, independent of
the save oracle. -/
theorem processPart_calls_some (ctx : InvocationContext) (saveOk : Nat → Bool)
    (i : Nat) (p : Part) (blob : Blob) (hp : p.inlineData = some blob) :
    (processPart ctx saveOk i p).2.1 = [expectedCall ctx i p blob] := by
  obtain ⟨t, d⟩ := p
  simp only at hp
  subst hp
  simp only [processPart, expectedCall, partAfterDefault]
  by_cases hn : strFalsy blob.displayName <;>
    by_cases hm : mimeBlank blob.mimeType <;> simp [hn, hm]

/-- Every store call from one loop iteration carries that iteration's index. -/
theorem processPart_calls_idx (ctx : InvocationContext) (saveOk : Nat → Bool)
    (i : Nat) (p : Part) :
    ∀ c ∈ (processPart ctx saveOk i p).2.1, c.partIndex = i := by
  cases hp : p.inlineData with
  | none => simp [processPart, hp]
  | some blob =>
    intro c hc
    rw [processPart_calls_some ctx saveOk i p blob hp] at hc
    simp at hc
    simp [hc, expectedCall]

/-- If the save raises at index `i` for an inline-binary part, the error log
for index `i` is emitted by that iteration. -/
theorem processPart_error_mem (ctx : InvocationContext) (saveOk : Nat → Bool)
    (i : Nat) (p : Part) (blob : Blob) (hp : p.inlineData = some blob)
    (hf : saveOk i = false) :
    LogEvent.errorSaveFailed i ∈ (processPart ctx saveOk i p).2.2 := by
  simp [processPart, hp, hf]

/-- The parts left in the message by the loop are the pointwise
`partAfterDefault` images, independent of the save oracle. -/
theorem runParts_fst (ctx : InvocationContext) (saveOk : Nat → Bool) :
    ∀ (i : Nat) (ps : List Part),
      (runParts ctx saveOk i ps).1 = ps.map partAfterDefault := by
  intro i ps
  induction ps generalizing i with
  | nil => simp [runParts]
  | cons p tl ih => simp [runParts, processPart_fst, ih]

/-- Every store call issued by the loop started at index `i` over `ps` has
its index in `[i, i + ps.length)`. -/
theorem runParts_calls_bound (ctx : InvocationContext) (saveOk : Nat → Bool) :
    ∀ (i : Nat) (ps : List Part),
      ∀ c ∈ (runParts ctx saveOk i ps).2.1,
        i ≤ c.partIndex ∧ c.partIndex < i + ps.length := by
  intro i ps
  induction ps generalizing i with
  | nil => simp [runParts]
  | cons p tl ih =>
    intro c hc
    simp only [runParts, List.mem_append] at hc
    rcases hc with hc | hc
    · have := processPart_calls_idx ctx saveOk i p c hc
      simp [this]
    · have := ih (i + 1) c hc
      constructor
      · omega
      · simp only [List.length_cons]
        omega

/-- The store calls of the loop whose index is `i + j` are exactly the calls
of iteration `j`: each message part contributes its own calls at its own
index and no other's. -/
theorem runParts_calls_at (ctx : InvocationContext) (saveOk : Nat → Bool) :
    ∀ (i j : Nat) (ps : List Part) (hj : j < ps.length),
      ((runParts ctx saveOk i ps).2.1.filter (fun c => c.partIndex == i + j)) =
        (processPart ctx saveOk (i + j) (ps.get ⟨j, hj⟩)).2.1 := by
  intro i j ps
  induction ps generalizing i j with
  | nil => intro hj; simp at hj
  | cons p tl ih =>
    intro hj
    cases j with
    | zero =>
      simp only [runParts, List.filter_append, Nat.add_zero, List.get]
      have h1 : ((processPart ctx saveOk i p).2.1.filter
          (fun c => c.partIndex == i)) = (processPart ctx saveOk i p).2.1 := by
        apply List.filter_eq_self.mpr
        intro c hc
        simp [processPart_calls_idx ctx saveOk i p c hc]
      have h2 : ((runParts ctx saveOk (i + 1) tl).2.1.filter
          (fun c => c.partIndex == i)) = [] := by
        apply List.filter_eq_nil_iff.mpr
        intro c hc
        have := runParts_calls_bound ctx saveOk (i + 1) tl c hc
        simp only [beq_iff_eq]
        omega
      rw [h1, h2, List.append_nil]
    | succ k =>
      have hk : k < tl.length := by
        simp only [List.length_cons] at hj
        omega
      simp only [runParts, List.filter_append, List.get]
      have h1 : ((processPart ctx saveOk i p).2.1.filter
          (fun c => c.partIndex == i + (k + 1))) = [] := by
        apply List.filter_eq_nil_iff.mpr
        intro c hc
        have := processPart_calls_idx ctx saveOk i p c hc
        simp only [beq_iff_eq, this]
        omega
      have h2 := ih (i + 1) k hk
      have harith : i + 1 + k = i + (k + 1) := by omega
      rw [harith] at h2
      rw [h1, h2, List.nil_append]

/-- If the save raises at loop index `i + j` and part `j` is inline-binary,
the error log for that index appears in the loop's log. -/
theorem runParts_error_mem (ctx : InvocationContext) (saveOk : Nat → Bool) :
    ∀ (i j : Nat) (ps : List Part) (hj : j < ps.length) (blob : Blob),
      (ps.get ⟨j, hj⟩).inlineData = some blob → saveOk (i + j) = false →
      LogEvent.errorSaveFailed (i + j) ∈ (runParts ctx saveOk i ps).2.2 := by
  intro i j ps
  induction ps generalizing i j with
  | nil => intro hj; simp at hj
  | cons p tl ih =>
    intro hj blob hinl hf
    cases j with
    | zero =>
      simp only [List.get] at hinl
      simp only [runParts, List.mem_append]
      exact Or.inl (processPart_error_mem ctx saveOk i p blob hinl hf)
    | succ k =>
      have hk : k < tl.length := by
        simp only [List.length_cons] at hj
        omega
      simp only [List.get] at hinl
      have harith : i + (k + 1) = i + 1 + k := by omega
      rw [harith] at hf ⊢
      simp only [runParts, List.mem_append]
      exact Or.inr (ih (i + 1) k hk blob hinl hf)

/-- A message whose parts are all non-inline issues no store call. -/
theorem runParts_calls_nil (ctx : InvocationContext) (saveOk : Nat → Bool) :
    ∀ (i : Nat) (ps : List Part), (∀ p ∈ ps, p.inlineData = none) →
      (runParts ctx saveOk i ps).2.1 = [] := by
  intro i ps
  induction ps generalizing i with
  | nil => simp [runParts]
  | cons p tl ih =>
    intro h
    simp only [runParts]
    rw [processPart_calls_none ctx saveOk i p (h p (List.mem_cons_self p tl)),
      ih (i + 1) (fun q hq => h q (List.mem_cons_of_mem p hq)), List.append_nil]

/-- With the artifact service present, the result fields of `process` on a
message with a parts list are those of the loop. -/
theorem process_eq_runParts (ctx : InvocationContext) (saveOk : Nat → Bool)
    (ps : List Part) (h : ctx.hasArtifactService = true) :
    process ctx saveOk { parts := some ps } =
      { returnValue := none,
        output := { parts := some (ps.map partAfterDefault) },
        saveCalls := (runParts ctx saveOk 0 ps).2.1,
        logs := (runParts ctx saveOk 0 ps).2.2 } := by
  cases ps with
  | nil => simp [process, h, runParts]
  | cons p tl => simp [process, h, runParts_fst]

/-- `process` returns `None` on every path. -/
theorem process_returnValue (ctx : InvocationContext) (saveOk : Nat → Bool)
    (msg : Content) : (process ctx saveOk msg).returnValue = none := by
  by_cases h : ctx.hasArtifactService = false
  · simp [process, h]
  · simp only [process, if_neg h]
    cases hp : msg.parts with
    | none => rfl
    | some ps => cases ps <;> rfl

/-- `partAfterDefault` on an inline-binary part: the blob is kept, with a
blank MIME type replaced by `text/plain`. -/
theorem partAfterDefault_inline (p : Part) (blob : Blob)
    (hp : p.inlineData = some blob) :
    (partAfterDefault p).inlineData = some
      (if mimeBlank blob.mimeType then { blob with mimeType := some "text/plain" }
       else blob) := by
  obtain ⟨t, d⟩ := p
  simp only at hp
  subst hp
  simp only [partAfterDefault]
  by_cases hm : mimeBlank blob.mimeType <;> simp [hm]

/-- `partAfterDefault` leaves a part with a non-blank MIME type untouched. -/
theorem partAfterDefault_eq_self (p : Part) (blob : Blob)
    (hp : p.inlineData = some blob) (hm : mimeBlank blob.mimeType = false) :
    partAfterDefault p = p := by
  obtain ⟨t, d⟩ := p
  simp only at hp
  subst hp
  simp [partAfterDefault, hm]

/-- `partAfterDefault` does not change a non-inline part. -/
theorem partAfterDefault_text (p : Part) (hp : p.inlineData = none) :
    partAfterDefault p = p := by
  obtain ⟨t, d⟩ := p
  simp only at hp
  subst hp
  simp [partAfterDefault]

/-- The store call for inline-binary part `j` is among the store calls of
the loop, whatever the save oracle does. -/
theorem runParts_call_mem (ctx : InvocationContext) (saveOk : Nat → Bool)
    (ps : List Part) (j : Nat) (hj : j < ps.length) (blob : Blob)
    (hinl : (ps.get ⟨j, hj⟩).inlineData = some blob) :
    expectedCall ctx j (ps.get ⟨j, hj⟩) blob ∈ (runParts ctx saveOk 0 ps).2.1 := by
  have h := runParts_calls_at ctx saveOk 0 j ps hj
  simp only [Nat.zero_add] at h
  rw [processPart_calls_some ctx saveOk j _ blob hinl] at h
  have hmem : expectedCall ctx j (ps.get ⟨j, hj⟩) blob ∈
      (runParts ctx saveOk 0 ps).2.1.filter (fun c => c.partIndex == j) := by
    rw [h]
    exact List.mem_singleton_self _
  exact List.mem_of_mem_filter hmem

/-- C1 as stated is false: the callback does mutate the caller-visible
output.  On a message whose second part is inline-binary with an absent MIME
type, after the callback returns that part carries `text/plain`, so the
message the caller sees differs from the message as received in that part's
media-type field. -/
theorem claim_C1_counterexample :
    (process ctxW (fun _ => true) msgW).output.parts =
      some [partText, partBareAfter, partNamed] ∧
    (process ctxW (fun _ => true) msgW).output ≠ msgW := by
  constructor
  · decide
  · decide

/-- C1 (amended): after `process` returns, the caller-visible message keeps
its Parts list length and order, every Part's content bytes, text, and name
fields, and the media type of every Part — except that, when the artifact
service is present, an inline-binary Part whose media type is absent or
blank after trimming has it set in place to `text/plain`
(`partAfterDefault` is exactly that per-Part effect and changes nothing
else).  With the service absent, the message is entirely unchanged. -/
theorem claim_C1_amended (ctx : InvocationContext) (saveOk : Nat → Bool)
    (msg : Content) :
    (process ctx saveOk msg).output.parts =
      if ctx.hasArtifactService = true then
        msg.parts.map (List.map partAfterDefault)
      else msg.parts := by
  obtain ⟨op⟩ := msg
  by_cases h : ctx.hasArtifactService = true
  · simp only [if_pos h]
    cases op with
    | none => simp [process, h]
    | some ps =>
      rw [process_eq_runParts ctx saveOk ps h]
      simp
  · have hf : ctx.hasArtifactService = false := by
      revert h
      cases ctx.hasArtifactService <;> simp
    simp [process, hf, h]

/-- C2: for an inline-binary Part at zero-based index `i` of the full Parts
list whose display name is absent or blank, the loop issues exactly one
store call at index `i`, and its filename is
`artifact_{invocation_id}_{i}.txt`. -/
theorem claim_C2 (ctx : InvocationContext) (saveOk : Nat → Bool)
    (ps : List Part) (i : Nat) (hi : i < ps.length) (blob : Blob)
    (hinl : (ps.get ⟨i, hi⟩).inlineData = some blob)
    (hname : blob.displayName = none ∨ blob.displayName = some "")
    (hsvc : ctx.hasArtifactService = true) :
    ∃ c : SaveCall,
      ((process ctx saveOk { parts := some ps }).saveCalls.filter
        (fun c => c.partIndex == i)) = [c] ∧
      c.filename = "artifact_" ++ ctx.invocationId ++ "_" ++ toString i ++ ".txt" := by
  refine ⟨expectedCall ctx i (ps.get ⟨i, hi⟩) blob, ?_, ?_⟩
  · rw [process_eq_runParts ctx saveOk ps hsvc]
    have h := runParts_calls_at ctx saveOk 0 i ps hi
    simp only [Nat.zero_add] at h
    rw [h]
    exact processPart_calls_some ctx saveOk i _ blob hinl
  · have hgen : strFalsy blob.displayName = true := by
      rcases hname with h | h <;> simp [strFalsy, h]
    simp [expectedCall, hgen, generatedName]

/-- Witness for C2 at part 1 of the witness message, whose display name is
absent: the filename is `artifact_inv1_1.txt`. -/
theorem claim_C2_witness :
    ∃ c : SaveCall,
      ((process ctxW (fun _ => true) { parts := some psW }).saveCalls.filter
        (fun c => c.partIndex == 1)) = [c] ∧
      c.filename = "artifact_" ++ ctxW.invocationId ++ "_" ++ toString 1 ++ ".txt" :=
  claim_C2 ctxW (fun _ => true) psW 1 (by decide) blobBare (by decide)
    (Or.inl rfl) rfl

/-- C3: for an inline-binary Part whose MIME type is absent or
whitespace-only, the artifact handed to the store carries `text/plain`. -/
theorem claim_C3 (ctx : InvocationContext) (saveOk : Nat → Bool)
    (ps : List Part) (i : Nat) (hi : i < ps.length) (blob : Blob)
    (hinl : (ps.get ⟨i, hi⟩).inlineData = some blob)
    (hmime : mimeBlank blob.mimeType = true)
    (hsvc : ctx.hasArtifactService = true) :
    ∃ c : SaveCall,
      ((process ctx saveOk { parts := some ps }).saveCalls.filter
        (fun c => c.partIndex == i)) = [c] ∧
      ∃ b2 : Blob, c.artifact.inlineData = some b2 ∧
        b2.mimeType = some "text/plain" := by
  refine ⟨expectedCall ctx i (ps.get ⟨i, hi⟩) blob, ?_, ?_⟩
  · rw [process_eq_runParts ctx saveOk ps hsvc]
    have h := runParts_calls_at ctx saveOk 0 i ps hi
    simp only [Nat.zero_add] at h
    rw [h]
    exact processPart_calls_some ctx saveOk i _ blob hinl
  · refine ⟨{ blob with mimeType := some "text/plain" }, ?_, rfl⟩
    show (partAfterDefault (ps.get ⟨i, hi⟩)).inlineData = _
    rw [partAfterDefault_inline _ blob hinl]
    simp [hmime]

/-- Witness for C3 at part 1 of the witness message, whose MIME type is
absent: the stored artifact carries `text/plain`. -/
theorem claim_C3_witness :
    ∃ c : SaveCall,
      ((process ctxW (fun _ => true) { parts := some psW }).saveCalls.filter
        (fun c => c.partIndex == 1)) = [c] ∧
      ∃ b2 : Blob, c.artifact.inlineData = some b2 ∧
        b2.mimeType = some "text/plain" :=
  claim_C3 ctxW (fun _ => true) psW 1 (by decide) blobBare (by decide) rfl rfl

/-- C4: with the artifact service absent, the callback performs zero store
calls, logs exactly the one warning, and returns `None`, whatever the
message holds. -/
theorem claim_C4 (ctx : InvocationContext) (saveOk : Nat → Bool) (msg : Content)
    (h : ctx.hasArtifactService = false) :
    (process ctx saveOk msg).saveCalls = [] ∧
    (process ctx saveOk msg).logs = [LogEvent.warnNoArtifactService] ∧
    (process ctx saveOk msg).returnValue = none := by
  simp [process, h]

/-- Witness for C4 on a concrete context without the service and a message
full of parts. -/
theorem claim_C4_witness :
    (process ctxNoSvc (fun _ => true) msgW).saveCalls = [] ∧
    (process ctxNoSvc (fun _ => true) msgW).logs = [LogEvent.warnNoArtifactService] ∧
    (process ctxNoSvc (fun _ => true) msgW).returnValue = none :=
  claim_C4 ctxNoSvc (fun _ => true) msgW rfl

/-- C5: if the store raises at part `k`, the failure is logged, the callback
still returns `None`, and every later inline-binary part is still attempted:
its store call, with its own filename and artifact, is among the calls
issued. -/
theorem claim_C5 (ctx : InvocationContext) (saveOk : Nat → Bool)
    (ps : List Part) (k : Nat) (hk : k < ps.length) (blobk : Blob)
    (hinlk : (ps.get ⟨k, hk⟩).inlineData = some blobk)
    (hsvc : ctx.hasArtifactService = true) (hfail : saveOk k = false) :
    (process ctx saveOk { parts := some ps }).returnValue = none ∧
    LogEvent.errorSaveFailed k ∈ (process ctx saveOk { parts := some ps }).logs ∧
    ∀ (j : Nat) (hj : j < ps.length), k < j → ∀ blob : Blob,
      (ps.get ⟨j, hj⟩).inlineData = some blob →
      expectedCall ctx j (ps.get ⟨j, hj⟩) blob ∈
        (process ctx saveOk { parts := some ps }).saveCalls := by
  rw [process_eq_runParts ctx saveOk ps hsvc]
  refine ⟨rfl, ?_, ?_⟩
  · have h := runParts_error_mem ctx saveOk 0 k ps hk blobk hinlk
    simp only [Nat.zero_add] at h
    exact h hfail
  · intro j hj _ blob hinl
    exact runParts_call_mem ctx saveOk ps j hj blob hinl

/-- Witness for C5: the save fails at part 1 (the bare inline part); part 2
(the named inline part) is still attempted and the return is `None`. -/
theorem claim_C5_witness :
    (process ctxW (fun _ => false) { parts := some psW }).returnValue = none ∧
    LogEvent.errorSaveFailed 1 ∈
      (process ctxW (fun _ => false) { parts := some psW }).logs ∧
    expectedCall ctxW 2 (psW.get ⟨2, by decide⟩) blobNamed ∈
      (process ctxW (fun _ => false) { parts := some psW }).saveCalls := by
  have h := claim_C5 ctxW (fun _ => false) psW 1 (by decide) blobBare (by decide)
    rfl rfl
  exact ⟨h.1, h.2.1, h.2.2 2 (by decide) (by decide) blobNamed (by decide)⟩

/-- C6: the callback is a total function that returns `None` on every input,
and a store failure at any inline-binary part is caught and logged as that
part's error record rather than escaping. -/
theorem claim_C6 (ctx : InvocationContext) (saveOk : Nat → Bool) (msg : Content) :
    (process ctx saveOk msg).returnValue = none ∧
    (∀ (ps : List Part), msg.parts = some ps → ctx.hasArtifactService = true →
      ∀ (i : Nat) (hi : i < ps.length) (blob : Blob),
        (ps.get ⟨i, hi⟩).inlineData = some blob → saveOk i = false →
        LogEvent.errorSaveFailed i ∈ (process ctx saveOk msg).logs) := by
  refine ⟨process_returnValue ctx saveOk msg, ?_⟩
  intro ps hps hsvc i hi blob hinl hfail
  obtain ⟨op⟩ := msg
  simp only at hps
  subst hps
  rw [process_eq_runParts ctx saveOk ps hsvc]
  have h := runParts_error_mem ctx saveOk 0 i ps hi blob hinl
  simp only [Nat.zero_add] at h
  exact h hfail

/-- Witness for C6: with a store that always fails, the return is still
`None` and the failure at part 1 is logged. -/
theorem claim_C6_witness :
    (process ctxW (fun _ => false) msgW).returnValue = none ∧
    LogEvent.errorSaveFailed 1 ∈ (process ctxW (fun _ => false) msgW).logs := by
  have h := claim_C6 ctxW (fun _ => false) msgW
  exact ⟨h.1, h.2 psW rfl rfl 1 (by decide) blobBare (by decide) rfl⟩

/-- C7: a message with no inline-binary Parts (no parts at all, or only
plain-content parts) leads to zero store calls and the `None` return. -/
theorem claim_C7 (ctx : InvocationContext) (saveOk : Nat → Bool) (msg : Content)
    (h : ∀ ps : List Part, msg.parts = some ps → ∀ p ∈ ps, p.inlineData = none) :
    (process ctx saveOk msg).saveCalls = [] ∧
    (process ctx saveOk msg).returnValue = none := by
  refine ⟨?_, process_returnValue ctx saveOk msg⟩
  by_cases hs : ctx.hasArtifactService = true
  · obtain ⟨op⟩ := msg
    cases op with
    | none => simp [process, hs]
    | some ps =>
      rw [process_eq_runParts ctx saveOk ps hs]
      exact runParts_calls_nil ctx saveOk 0 ps (h ps rfl)
  · have hf : ctx.hasArtifactService = false := by
      revert hs
      cases ctx.hasArtifactService <;> simp
    simp [process, hf]

/-- Witness for C7 on a message holding a single text part. -/
theorem claim_C7_witness :
    (process ctxW (fun _ => true) msgTextOnly).saveCalls = [] ∧
    (process ctxW (fun _ => true) msgTextOnly).returnValue = none := by
  refine claim_C7 ctxW (fun _ => true) msgTextOnly ?_
  intro ps hps p hp
  have hps2 : ps = [partText] := by
    have h1 : msgTextOnly.parts = some [partText] := rfl
    rw [h1] at hps
    exact (Option.some.injEq _ _ ▸ hps).symm
  subst hps2
  simp only [List.mem_singleton] at hp
  subst hp
  rfl

/-- C8: an inline-binary Part with a non-blank display name and a non-blank
MIME type is saved under exactly that filename with the part passed through
unmodified, its MIME type included. -/
theorem claim_C8 (ctx : InvocationContext) (saveOk : Nat → Bool)
    (ps : List Part) (i : Nat) (hi : i < ps.length) (blob : Blob)
    (hinl : (ps.get ⟨i, hi⟩).inlineData = some blob)
    (nm : String) (hname : blob.displayName = some nm) (hnm : nm ≠ "")
    (mt : String) (hmime : blob.mimeType = some mt) (hmt : pyStrip mt ≠ "")
    (hsvc : ctx.hasArtifactService = true) :
    ∃ c : SaveCall,
      ((process ctx saveOk { parts := some ps }).saveCalls.filter
        (fun c => c.partIndex == i)) = [c] ∧
      c.filename = nm ∧
      c.artifact = ps.get ⟨i, hi⟩ ∧
      c.artifact.inlineData = some blob := by
  have hmb : mimeBlank blob.mimeType = false := by
    rw [hmime]
    simp only [mimeBlank, Bool.or_eq_false_iff, beq_eq_false_iff_ne, ne_eq]
    constructor
    · intro he
      apply hmt
      rw [he]
      rfl
    · exact hmt
  refine ⟨expectedCall ctx i (ps.get ⟨i, hi⟩) blob, ?_, ?_, ?_, ?_⟩
  · rw [process_eq_runParts ctx saveOk ps hsvc]
    have h := runParts_calls_at ctx saveOk 0 i ps hi
    simp only [Nat.zero_add] at h
    rw [h]
    exact processPart_calls_some ctx saveOk i _ blob hinl
  · simp only [expectedCall, hname]
    have hgen : strFalsy (some nm) = false := by simp [strFalsy, hnm]
    simp [hgen]
  · show partAfterDefault (ps.get ⟨i, hi⟩) = _
    exact partAfterDefault_eq_self _ blob hinl hmb
  · show (partAfterDefault (ps.get ⟨i, hi⟩)).inlineData = _
    rw [partAfterDefault_eq_self _ blob hinl hmb]
    exact hinl

/-- Witness for C8 at part 2 of the witness message, named `f.png` with MIME
type `image/png`. -/
theorem claim_C8_witness :
    ∃ c : SaveCall,
      ((process ctxW (fun _ => true) { parts := some psW }).saveCalls.filter
        (fun c => c.partIndex == 2)) = [c] ∧
      c.filename = "f.png" ∧
      c.artifact = psW.get ⟨2, by decide⟩ ∧
      c.artifact.inlineData = some blobNamed :=
  claim_C8 ctxW (fun _ => true) psW 2 (by decide) blobNamed (by decide)
    "f.png" (by decide) (by decide) "image/png" (by decide) (by decide) rfl

/-- C10: when an inline-binary Part's MIME type is blank and its save call
fails, the part inside the caller's message still carries the defaulted
`text/plain` after the callback returns: the defaulting is not rolled
back. -/
theorem claim_C10 (ctx : InvocationContext) (saveOk : Nat → Bool)
    (ps : List Part) (i : Nat) (hi : i < ps.length) (blob : Blob)
    (hinl : (ps.get ⟨i, hi⟩).inlineData = some blob)
    (hmime : mimeBlank blob.mimeType = true)
    (hsvc : ctx.hasArtifactService = true) (_hfail : saveOk i = false) :
    ∃ qs : List Part,
      (process ctx saveOk { parts := some ps }).output.parts = some qs ∧
      ∃ hq : i < qs.length, ∃ b2 : Blob,
        (qs.get ⟨i, hq⟩).inlineData = some b2 ∧
        b2.mimeType = some "text/plain" := by
  rw [process_eq_runParts ctx saveOk ps hsvc]
  refine ⟨ps.map partAfterDefault, rfl, ?_⟩
  have hq : i < (ps.map partAfterDefault).length := by simpa using hi
  refine ⟨hq, { blob with mimeType := some "text/plain" }, ?_, rfl⟩
  have hget : (ps.map partAfterDefault).get ⟨i, hq⟩ =
      partAfterDefault (ps.get ⟨i, hi⟩) := by
    simp
  rw [hget, partAfterDefault_inline _ blob hinl]
  simp [hmime]

/-- Witness for C10: the bare inline part at index 1 keeps `text/plain` in
the caller's message even though its save failed. -/
theorem claim_C10_witness :
    ∃ qs : List Part,
      (process ctxW (fun _ => false) { parts := some psW }).output.parts = some qs ∧
      ∃ hq : 1 < qs.length, ∃ b2 : Blob,
        (qs.get ⟨1, hq⟩).inlineData = some b2 ∧
        b2.mimeType = some "text/plain" :=
  claim_C10 ctxW (fun _ => false) psW 1 (by decide) blobBare (by decide) rfl rfl rfl

/-- C9 as stated is false: `copy.copy` is a shallow copy, so the copy handed
to the store shares the blob object with the message's part.  On the witness
heap, a store-side in-place mutation of the copy's blob data is visible
through the message's part at address 0: its inline binary data reads `[9]`
instead of the original `[1, 2, 3]`. -/
theorem claim_C9_counterexample :
    readBlob (applyMutation (copyCopy heapW 0).1 (copyCopy heapW 0).2
        (StoreMutation.setBlobData [9])) 0 ≠ readBlob heapW 0 ∧
    Option.map BlobObj.data (readBlob (applyMutation (copyCopy heapW 0).1
        (copyCopy heapW 0).2 (StoreMutation.setBlobData [9])) 0) = some [9] := by
  constructor <;> decide

/-- C9 (amended): the Part handed to the store is a fresh part object
distinct from the message's, so a store mutation that overwrites the fields
of its argument part object cannot alter the Part held in the message; the
nested blob object, however, is shared, so in-place mutation of the inline
binary data does propagate (see the counterexample). -/
theorem claim_C9_amended (h : Heap) (a : Nat) (ha : a < h.parts.length)
    (v : PartObj) :
    (copyCopy h a).2 ≠ a ∧
    readPart (applyMutation (copyCopy h a).1 (copyCopy h a).2
      (StoreMutation.setPartFields v)) a = readPart h a := by
  have hne : h.parts.length ≠ a := by omega
  refine ⟨hne, ?_⟩
  simp only [copyCopy, applyMutation, readPart]
  rw [List.getD_eq_getElem?_getD, List.getD_eq_getElem?_getD,
    List.getElem?_set_ne hne, List.getElem?_append_left ha]

/-- Witness for the amended C9 on the witness heap: overwriting the copy's
own fields leaves the message's part object unchanged. -/
theorem claim_C9_amended_witness :
    (copyCopy heapW 0).2 ≠ 0 ∧
    readPart (applyMutation (copyCopy heapW 0).1 (copyCopy heapW 0).2
      (StoreMutation.setPartFields { text := some "x", inlineDataAddr := none })) 0 =
      readPart heapW 0 :=
  claim_C9_amended heapW 0 (by decide) { text := some "x", inlineDataAddr := none }

end SaveArtifacts
